/-
Verification of the RepoDepot task-orchestration core against its
natural-language specification.

The definitions below are a shallow embedding of the TypeScript source:
  - packages/server/src/routes/users.ts        (agent routes: claim / status /
    complete, process supervisor start / stop)
  - packages/server/src/routes/progress.ts     (plan / step / ask / answer /
    long-poll routes)
  - packages/server/src/repositories/ProgressRepository.ts
  - IssueRepository (unnamed source part 014)

Conventions of the embedding:
  - ISO-8601 timestamps are modelled as naturals (`Nat`); the source only
    ever writes `new Date().toISOString()` and compares nothing, so the
    choice of representation is irrelevant to the claims.
  - SQLite row sets are modelled as Lists of rows in insertion order;
    `ORDER BY` clauses are modelled with an explicit insertion sort or a
    maximum scan.
  - better-sqlite3 is synchronous and Node's event loop is single threaded,
    so each route handler's read-check-write section executes atomically;
    "concurrent" calls are therefore modelled as sequential composition in
    either order.
  - JavaScript truthiness of strings (empty string is falsy) is modelled
    explicitly where the source relies on it.
-/
import Mathlib

namespace RepoDepot

/-! ## Task (issue) data model, from @repodepot/shared and IssueRepository -/

/-- `AgentStatus` from packages/shared: the task claim-status column. -/
inductive AgentStatus
  | pending
  | assigned
  | in_progress
  | completed
  | failed
deriving DecidableEq

/-- `IssueStatus` from packages/shared (the separate workflow status field);
`in_progress` stands for the source string literal with a hyphen. -/
inductive IssueStatus
  | backlog
  | todo
  | in_progress
  | review
  | done
deriving DecidableEq

/-- `IssuePriority` from packages/shared. -/
inductive IssuePriority
  | low
  | medium
  | high
  | critical
deriving DecidableEq

/-- An issue row, as materialised by `IssueRepository.mapRowToIssue`. -/
structure Issue where
  id : String
  repoId : Nat
  title : String
  description : Option String
  status : IssueStatus
  priority : IssuePriority
  assigneeId : Option String
  reporterId : String
  labels : List String
  createdAt : Nat
  updatedAt : Nat
  githubIssueNumber : Option Nat
  githubIssueUrl : Option String
  syncedAt : Option Nat
  agentStatus : AgentStatus
  agentClaimedAt : Option Nat
  agentCompletedAt : Option Nat
  agentError : Option String
deriving DecidableEq

/-- The partial-update record accepted by `IssueRepository.update`: an outer
`none` means the field is absent from the update (`undefined` in TS) and is
left untouched. -/
structure IssueUpdate where
  title : Option String
  description : Option (Option String)
  status : Option IssueStatus
  priority : Option IssuePriority
  assigneeId : Option (Option String)
  githubIssueNumber : Option (Option Nat)
  githubIssueUrl : Option (Option String)
  syncedAt : Option (Option Nat)
  agentStatus : Option AgentStatus
  agentClaimedAt : Option (Option Nat)
  agentCompletedAt : Option (Option Nat)
  agentError : Option (Option String)
  labels : Option (List String)
deriving DecidableEq

/-- The empty update (every field absent). -/
def noUpdate : IssueUpdate :=
  ⟨none, none, none, none, none, none, none, none, none, none, none, none, none⟩

/-- `IssueRepository.update` on a found row: if no field of the update is
present the existing row is returned unchanged (the source short-circuits
before touching the database); otherwise every present field is written and
`updated_at` is stamped with `now`. -/
def applyUpdate (i : Issue) (u : IssueUpdate) (now : Nat) : Issue :=
  if u = noUpdate then i
  else
    { id := i.id
      repoId := i.repoId
      title := u.title.getD i.title
      description := u.description.getD i.description
      status := u.status.getD i.status
      priority := u.priority.getD i.priority
      assigneeId := u.assigneeId.getD i.assigneeId
      reporterId := i.reporterId
      labels := u.labels.getD i.labels
      createdAt := i.createdAt
      updatedAt := now
      githubIssueNumber := u.githubIssueNumber.getD i.githubIssueNumber
      githubIssueUrl := u.githubIssueUrl.getD i.githubIssueUrl
      syncedAt := u.syncedAt.getD i.syncedAt
      agentStatus := u.agentStatus.getD i.agentStatus
      agentClaimedAt := u.agentClaimedAt.getD i.agentClaimedAt
      agentCompletedAt := u.agentCompletedAt.getD i.agentCompletedAt
      agentError := u.agentError.getD i.agentError }

/-! ## Task claim state machine, from routes/users.ts (agentRoutes) -/

/-- Errors returned by the agent task routes.  `notFound` is the 404
"Issue not found" response, `invalidTransition` the 400
"Task already \<status\>" response of the claim route, and `invalidStatus`
the 400 "Invalid status" response of the status route. -/
inductive TaskErr
  | notFound
  | invalidTransition (current : AgentStatus)
  | invalidStatus
deriving DecidableEq

/-- The field updates written by a successful claim. -/
def claimUpdate (now : Nat) : IssueUpdate :=
  { noUpdate with
      agentStatus := some AgentStatus.assigned
      agentClaimedAt := some (some now)
      status := some IssueStatus.in_progress }

/-- `POST /api/agent/tasks/:issueId/claim`: fail 404 when the issue is
absent; fail 400 unless `agentStatus` is exactly `pending`; otherwise set
`agentStatus := assigned`, stamp `agentClaimedAt := now` and set the
workflow `status := in-progress`.  The GitHub label sync that follows in
the source is fire-and-forget and does not touch the local row. -/
def claimTask (issue? : Option Issue) (now : Nat) : Except TaskErr Issue :=
  match issue? with
  | none => Except.error TaskErr.notFound
  | some issue =>
    if issue.agentStatus ≠ AgentStatus.pending then
      Except.error (TaskErr.invalidTransition issue.agentStatus)
    else
      Except.ok (applyUpdate issue (claimUpdate now) now)

/-- `POST /api/agent/tasks/:issueId/status`: the body status must be one of
`assigned | in_progress | completed | failed` (so never `pending`); the
route performs no check of the current status.  `in_progress` also sets
the workflow status, `completed` stamps `agentCompletedAt` and moves the
workflow status to `review`, `failed` records the error text (defaulting
to "Unknown error") and resets the workflow status to `todo`. -/
def setTaskStatus (issue? : Option Issue) (status : AgentStatus)
    (err : Option String) (now : Nat) : Except TaskErr Issue :=
  if status = AgentStatus.pending then Except.error TaskErr.invalidStatus
  else
    match issue? with
    | none => Except.error TaskErr.notFound
    | some issue =>
      let u0 : IssueUpdate := { noUpdate with agentStatus := some status }
      let u : IssueUpdate :=
        if status = AgentStatus.in_progress then
          { u0 with status := some IssueStatus.in_progress }
        else if status = AgentStatus.completed then
          { u0 with
              agentCompletedAt := some (some now)
              status := some IssueStatus.review }
        else if status = AgentStatus.failed then
          { u0 with
              agentError := some (some (err.getD "Unknown error"))
              status := some IssueStatus.todo }
        else u0
      Except.ok (applyUpdate issue u now)

/-- `POST /api/agent/tasks/:issueId/complete`: unconditionally set
`agentStatus := completed`, stamp completion, move the workflow status to
`review`, and (when a summary is given) append it to the description. -/
def completeTask (issue? : Option Issue) (summary : Option String)
    (prUrl : Option String) (now : Nat) : Except TaskErr Issue :=
  match issue? with
  | none => Except.error TaskErr.notFound
  | some issue =>
    let desc : Option String :=
      match summary with
      | some s =>
        some ((issue.description.getD "") ++ "\n\n---\n**Agent Summary:** " ++ s ++
          (match prUrl with
           | some u => "\n**PR:** " ++ u
           | none => ""))
      | none => issue.description
    Except.ok (applyUpdate issue
      { noUpdate with
          agentStatus := some AgentStatus.completed
          agentCompletedAt := some (some now)
          status := some IssueStatus.review
          description := some desc } now)

/-- One operation of the claim state machine acting on a single task. -/
inductive TaskOp
  | claimOp (now : Nat)
  | statusOp (status : AgentStatus) (err : Option String) (now : Nat)
  | completeOp (summary : Option String) (prUrl : Option String) (now : Nat)

/-- Apply one operation; a failed operation leaves the row unchanged
(the route returns an error response without writing). -/
def applyTaskOp (i : Issue) : TaskOp → Issue
  | TaskOp.claimOp now =>
    match claimTask (some i) now with
    | Except.ok j => j
    | Except.error _ => i
  | TaskOp.statusOp s e now =>
    match setTaskStatus (some i) s e now with
    | Except.ok j => j
    | Except.error _ => i
  | TaskOp.completeOp s p now =>
    match completeTask (some i) s p now with
    | Except.ok j => j
    | Except.error _ => i

/-- Apply a sequence of operations left to right. -/
def applyTaskOps (i : Issue) (ops : List TaskOp) : Issue :=
  ops.foldl applyTaskOp i

/-- A concrete issue used in witnesses and counterexamples. -/
def sampleIssue : Issue :=
  { id := "task-1"
    repoId := 1
    title := "T"
    description := none
    status := IssueStatus.todo
    priority := IssuePriority.medium
    assigneeId := none
    reporterId := "u"
    labels := ["bug"]
    createdAt := 0
    updatedAt := 0
    githubIssueNumber := some 7
    githubIssueUrl := none
    syncedAt := none
    agentStatus := AgentStatus.pending
    agentClaimedAt := none
    agentCompletedAt := none
    agentError := none }

/-- `sampleIssue` with claim status `failed`. -/
def failedIssue : Issue := { sampleIssue with agentStatus := AgentStatus.failed }

/-! ## Progress Ledger, from ProgressRepository.ts and routes/progress.ts -/

/-- `StepStatus` from packages/shared. -/
inductive StepStatus
  | pending
  | in_progress
  | done
  | failed
  | skipped
deriving DecidableEq

/-- A row of the `task_steps` table.  `randomUUID` primary keys are
modelled as naturals; nothing in the studied routes depends on their
value, only on `(task_id, idx)`. -/
structure Step where
  id : Nat
  taskId : String
  idx : Int
  description : String
  status : StepStatus
  note : Option String
  startedAt : Option Nat
  completedAt : Option Nat
deriving DecidableEq

/-- Comparison by step index, used to model `ORDER BY idx ASC`. -/
def byIdx (a b : Step) : Prop := a.idx ≤ b.idx

instance : DecidableRel byIdx := fun a b => Int.decLe a.idx b.idx

/-- The whole `task_steps` table is a list of rows in insertion order. -/
abbrev StepDb := List Step

/-- `WHERE task_id = ?`: the rows belonging to one task, in table order. -/
def stepsOfTask (db : StepDb) (t : String) : List Step :=
  db.filter (fun s => s.taskId == t)

/-- The rows inserted by `ProgressRepository.createPlan`, indices
`i, i+1, ...`, all `pending` with no note and no timestamps. -/
def mkPlanFrom (t : String) (i : Nat) : List String → List Step
  | [] => []
  | d :: ds =>
    { id := i
      taskId := t
      idx := (i : Int)
      description := d
      status := StepStatus.pending
      note := none
      startedAt := none
      completedAt := none } :: mkPlanFrom t (i + 1) ds

/-- `ProgressRepository.createPlan`: delete every row of the task, then
insert one `pending` row per description at indices `0..N-1`. -/
def createPlan (db : StepDb) (t : String) (descs : List String) : StepDb :=
  db.filter (fun s => !(s.taskId == t)) ++ mkPlanFrom t 0 descs

/-- `ProgressRepository.getSteps`: the task's rows ordered by `idx`
ascending. -/
def getSteps (db : StepDb) (t : String) : List Step :=
  List.insertionSort byIdx (stepsOfTask db t)

/-- The row-level effect of `ProgressRepository.updateStep` on a matching
row: status is overwritten, a provided note is written, `in_progress`
stamps `started_at := now`, and any of `done | failed | skipped` stamps
`completed_at := now`. -/
def updateStepRow (status : StepStatus) (note : Option String) (now : Nat)
    (s : Step) : Step :=
  { s with
      status := status
      note := match note with | some n => some n | none => s.note
      startedAt := if status = StepStatus.in_progress then some now else s.startedAt
      completedAt :=
        if status = StepStatus.done ∨ status = StepStatus.failed ∨
            status = StepStatus.skipped then some now
        else s.completedAt }

/-- `WHERE task_id = ? AND idx = ?`. -/
def stepMatches (t : String) (i : Int) (s : Step) : Bool :=
  s.taskId == t && s.idx == i

/-- `ProgressRepository.updateStep`: update every matching row, then
re-select; the returned `Option Step` is `none` exactly when no row
matches (the route then answers 404 "Step not found"). -/
def updateStep (db : StepDb) (t : String) (i : Int) (status : StepStatus)
    (note : Option String) (now : Nat) : Option Step × StepDb :=
  let db2 := db.map (fun s => if stepMatches t i s then updateStepRow status note now s else s)
  (db2.find? (stepMatches t i), db2)

/-- `ProgressRepository.addStep`: `UPDATE ... SET idx = idx + 1 WHERE
task_id = ? AND idx > ?`, then insert the new `pending` row at
`afterIndex + 1`. -/
def addStep (db : StepDb) (t : String) (descr : String) (afterIndex : Int)
    (newId : Nat) : Step × StepDb :=
  let db2 := db.map (fun s =>
    if s.taskId == t && afterIndex < s.idx then { s with idx := s.idx + 1 } else s)
  let newRow : Step :=
    { id := newId
      taskId := t
      idx := afterIndex + 1
      description := descr
      status := StepStatus.pending
      note := none
      startedAt := none
      completedAt := none }
  (newRow, db2 ++ [newRow])

/-- Whitespace, for the model of JavaScript `String.prototype.trim` used
by the route validations (`s.trim().length > 0`). -/
def isWsChar (c : Char) : Bool :=
  c = ' ' || c = '\t' || c = '\n' || c = '\r'

/-- Model of `String.prototype.trim`: drop leading and trailing
whitespace. -/
def strTrim (s : String) : String :=
  ⟨((s.data.dropWhile isWsChar).reverse.dropWhile isWsChar).reverse⟩

/-- Errors of the progress routes: 404 "Task not found", 404
"Step not found", 400 validation messages, and 400
"No pending question for this task". -/
inductive ProgressErr
  | taskNotFound
  | stepNotFound
  | validation (msg : String)
  | noPendingQuestion
deriving DecidableEq

/-- The field updates written when declaring a plan promotes the task. -/
def planPromoteUpdate : IssueUpdate :=
  { noUpdate with
      agentStatus := some AgentStatus.in_progress
      status := some IssueStatus.in_progress }

/-- `POST /progress/:taskId/plan`: 404 when the task is missing, 400 when
`steps` is empty or contains a blank string; otherwise replace the plan
and, when the task's claim status is `pending` or `assigned`, promote it
to `in_progress` (also moving the workflow status). -/
def createPlanRoute (issue? : Option Issue) (db : StepDb) (t : String)
    (steps : List String) (now : Nat) : Except ProgressErr (StepDb × Issue) :=
  match issue? with
  | none => Except.error ProgressErr.taskNotFound
  | some issue =>
    if steps.isEmpty then
      Except.error (ProgressErr.validation "steps must be a non-empty array of strings")
    else if !(steps.all (fun s => !(strTrim s == ""))) then
      Except.error (ProgressErr.validation "All steps must be non-empty strings")
    else
      let db2 := createPlan db t steps
      let issue2 :=
        if issue.agentStatus = AgentStatus.assigned ∨ issue.agentStatus = AgentStatus.pending then
          applyUpdate issue planPromoteUpdate now
        else issue
      Except.ok (db2, issue2)

/-- `PUT /progress/:taskId/step/:index`: 404 when the task is missing, 400
on a negative index, 404 "Step not found" when no row matches. -/
def updateStepRoute (issue? : Option Issue) (db : StepDb) (t : String)
    (i : Int) (status : StepStatus) (note : Option String) (now : Nat) :
    Except ProgressErr (Step × StepDb) :=
  match issue? with
  | none => Except.error ProgressErr.taskNotFound
  | some _ =>
    if i < 0 then Except.error (ProgressErr.validation "Invalid step index")
    else
      match (updateStep db t i status note now).1 with
      | none => Except.error ProgressErr.stepNotFound
      | some s => Except.ok (s, (updateStep db t i status note now).2)

/-- `POST /progress/:taskId/step`: 404 when the task is missing, 400 on a
blank description or `afterIndex < -1`; any `afterIndex ≥ -1` is accepted
and forwarded to `addStep` with the trimmed description. -/
def addStepRoute (issue? : Option Issue) (db : StepDb) (t : String)
    (descr : String) (afterIndex : Int) (newId : Nat) :
    Except ProgressErr (Step × StepDb) :=
  match issue? with
  | none => Except.error ProgressErr.taskNotFound
  | some _ =>
    if strTrim descr == "" then
      Except.error (ProgressErr.validation "description must be a non-empty string")
    else if afterIndex < -1 then
      Except.error (ProgressErr.validation "afterIndex must be a number >= -1")
    else
      Except.ok (addStep db t (strTrim descr) afterIndex newId)

/-- A step list is contiguous when, writing `N` for its length, each index
`0..N-1` is carried by exactly one row. -/
def contiguousb (l : List Step) : Bool :=
  (List.range l.length).all (fun k => l.countP (fun s => s.idx == (k : Int)) == 1)

/-- Per-task contiguity of the whole table. -/
def taskContiguous (db : StepDb) (t : String) : Bool :=
  contiguousb (stepsOfTask db t)

/-! ## Clarification Channel, from ProgressRepository.ts and routes/progress.ts -/

/-- A row of the `task_questions` table. -/
structure Question where
  id : Nat
  taskId : String
  question : String
  choices : Option (List String)
  answer : Option String
  askedAt : Nat
  answeredAt : Option Nat
deriving DecidableEq

/-- The `task_questions` table in insertion order. -/
abbrev QDb := List Question

/-- `ProgressRepository.askQuestion`: insert a new unanswered row stamped
with `asked_at := now`. -/
def askQuestion (db : QDb) (t : String) (q : String)
    (choices : Option (List String)) (newId : Nat) (now : Nat) : Question × QDb :=
  let row : Question :=
    { id := newId, taskId := t, question := q, choices := choices,
      answer := none, askedAt := now, answeredAt := none }
  (row, db ++ [row])

/-- `ORDER BY asked_at DESC LIMIT 1`: the row with the greatest `asked_at`
(the later row of the list on ties, which SQLite leaves unspecified). -/
def pickMaxAskedAt (l : List Question) : Option Question :=
  l.foldl (fun acc q =>
    match acc with
    | none => some q
    | some b => if b.askedAt ≤ q.askedAt then some q else some b) none

/-- `ORDER BY answered_at DESC LIMIT 1` over answered rows. -/
def pickMaxAnsweredAt (l : List Question) : Option Question :=
  l.foldl (fun acc q =>
    match acc with
    | none => some q
    | some b => if b.answeredAt.getD 0 ≤ q.answeredAt.getD 0 then some q else some b) none

/-- `ProgressRepository.getPendingQuestion`: the most recently asked row of
the task with `answer IS NULL`. -/
def getPendingQuestion (db : QDb) (t : String) : Option Question :=
  pickMaxAskedAt (db.filter (fun q => q.taskId == t && q.answer == none))

/-- `ProgressRepository.getAnswer`: the most recently answered row of the
task with `answer IS NOT NULL`. -/
def getAnswer (db : QDb) (t : String) : Option Question :=
  pickMaxAnsweredAt (db.filter (fun q => q.taskId == t && !(q.answer == none)))

/-- `ProgressRepository.answerQuestion`: `none` when the task has no
pending question; otherwise write answer and `answered_at := now` on the
row whose `id` is the pending question's. -/
def answerQuestion (db : QDb) (t : String) (ans : String) (now : Nat) :
    Option (Question × QDb) :=
  match getPendingQuestion db t with
  | none => none
  | some pending =>
    let db2 := db.map (fun q =>
      if q.id == pending.id then { q with answer := some ans, answeredAt := some now } else q)
    some ({ pending with answer := some ans, answeredAt := some now }, db2)

/-- `POST /progress/:taskId/answer`: 404 when the task is missing, 400 on a
blank answer, 400 "No pending question for this task" when there is no
pending question; otherwise the trimmed answer is recorded.  The source's
unreachable 500 "Failed to save answer" branch is kept as `validation`. -/
def answerRoute (issue? : Option Issue) (db : QDb) (t : String) (ans : String)
    (now : Nat) : Except ProgressErr (Question × QDb) :=
  match issue? with
  | none => Except.error ProgressErr.taskNotFound
  | some _ =>
    if strTrim ans == "" then
      Except.error (ProgressErr.validation "answer must be a non-empty string")
    else
      match getPendingQuestion db t with
      | none => Except.error ProgressErr.noPendingQuestion
      | some _ =>
        match answerQuestion db t (strTrim ans) now with
        | none => Except.error (ProgressErr.validation "Failed to save answer")
        | some r => Except.ok r

/-- One mutation of the `task_questions` table, for the immutability
claim. -/
inductive QOp
  | askOp (t : String) (q : String) (choices : Option (List String)) (newId : Nat) (now : Nat)
  | answerOp (t : String) (ans : String) (now : Nat)

/-- Apply one question operation; a failed `answer` leaves the table
unchanged. -/
def applyQOp (db : QDb) : QOp → QDb
  | QOp.askOp t q c nid now => (askQuestion db t q c nid now).2
  | QOp.answerOp t a now =>
    match answerQuestion db t a now with
    | some r => r.2
    | none => db

/-- Apply a sequence of question operations left to right. -/
def applyQOps (db : QDb) (ops : List QOp) : QDb :=
  ops.foldl applyQOp db

/-- An `ask` uses an id not present in the table (the source uses
`randomUUID`); `answer` introduces no id. -/
def qopIdFresh (db : QDb) : QOp → Prop
  | QOp.askOp _ _ _ nid _ => ∀ q ∈ db, q.id ≠ nid
  | QOp.answerOp _ _ _ => True

/-- Every `ask` in the sequence uses an id not present in the table at the
moment it runs. -/
def idsOk : QDb → List QOp → Prop
  | _, [] => True
  | db, op :: ops => qopIdFresh db op ∧ idsOk (applyQOp db op) ops

/-- The result shape of `GET /progress/:taskId/answer`. -/
structure WaitResult where
  answered : Bool
  question : Option Question
  message : Option String
deriving DecidableEq

/-- `Math.min(Math.max(parseInt(timeout, 10) || 0, 0), 30000)`; `none`
stands for an absent or unparsable query parameter (`parseInt` gives
`NaN`, which `|| 0` turns into 0). -/
def clampTimeout (timeout : Option Int) : Nat :=
  (min (max (timeout.getD 0) 0) 30000).toNat

/-- `answer && answer.answer && answer.id === pendingQuestion.id`: the
poll-loop exit test (an empty-string answer is falsy in JavaScript). -/
def answerMatches (pq : Question) (a? : Option Question) : Bool :=
  match a? with
  | some a => !((a.answer.getD "") == "") && a.id == pq.id
  | none => false

/-- `existingAnswer && existingAnswer.answer`: the immediate-return test. -/
def hasTruthyAnswer (a? : Option Question) : Bool :=
  match a? with
  | some a => !((a.answer.getD "") == "")
  | none => false

/-- The `while (true)` poll loop of the answer route: checks run at elapsed
times `0, 500, 1000, ...`; `o e` is what `progressRepo.getAnswer(taskId)`
returns at elapsed time `e`; the loop exits with the timeout result as
soon as the elapsed time reaches `pollTimeout`. -/
def waitLoop (o : Nat → Option Question) (pq : Question) (pollTimeout elapsed : Nat) :
    WaitResult :=
  if _h : pollTimeout ≤ elapsed then ⟨false, some pq, none⟩
  else
    match o elapsed with
    | some a =>
      if !((a.answer.getD "") == "") && a.id == pq.id then ⟨true, some a, none⟩
      else waitLoop o pq pollTimeout (elapsed + 500)
    | none => waitLoop o pq pollTimeout (elapsed + 500)
termination_by pollTimeout - elapsed
decreasing_by all_goals omega

/-- `GET /progress/:taskId/answer`: immediate `answered=true` when the most
recently answered question exists (and its answer is truthy); otherwise
`answered=false` with a message when no question is pending; otherwise
long-poll with the clamped timeout (0 returns at once). -/
def waitForAnswer (issue? : Option Issue) (db : QDb) (o : Nat → Option Question)
    (t : String) (timeout : Option Int) : Except ProgressErr WaitResult :=
  match issue? with
  | none => Except.error ProgressErr.taskNotFound
  | some _ =>
    if hasTruthyAnswer (getAnswer db t) then
      Except.ok ⟨true, getAnswer db t, none⟩
    else
      match getPendingQuestion db t with
      | none => Except.ok ⟨false, none, some "No pending question for this task"⟩
      | some pq =>
        let pollTimeout := clampTimeout timeout
        if pollTimeout = 0 then Except.ok ⟨false, some pq, none⟩
        else Except.ok (waitLoop o pq pollTimeout 0)

/-! ## Process Supervisor, from routes/users.ts (agentRoutes, runningAgents) -/

/-- An entry of the `runningAgents` map (the rolling log buffer and log
file path carry no information the claims mention). -/
structure AgentEntry where
  startedAt : Nat
  pid : Nat
deriving DecidableEq

/-- The in-memory `runningAgents : Map<number, ...>` table, keyed by
repository id. -/
abbrev ProcTable := List (Nat × AgentEntry)

/-- A repository row, reduced to the fields the start route reads. -/
structure Repo where
  id : Nat
  fullName : String
  localPath : Option String
deriving DecidableEq

/-- Errors of the agent process routes. -/
inductive AgentErr
  | repoNotFound
  | alreadyRunning
  | noWorkDir
deriving DecidableEq

/-- JavaScript truthiness of an optional string: `null`, `undefined` and
the empty string are all falsy. -/
def truthyStr (s? : Option String) : Option String :=
  match s? with
  | some s => if s == "" then none else some s
  | none => none

/-- `runningAgents.has(repoId)`. -/
def tracked (tbl : ProcTable) (repoId : Nat) : Bool :=
  tbl.any (fun e => e.1 == repoId)

/-- `POST /api/agent/start/:repoId`: 404 when the repository row is
missing; 400 "Agent already running" when the id is tracked; work
directory is `req.body.workDir || repository.localPath`, and a falsy
result is the 400 "No local path configured" error; on success the spawned
process is recorded under the repo id (exit and error handlers are modelled
by `agentExit`). -/
def startAgent (tbl : ProcTable) (repo? : Option Repo) (repoId : Nat)
    (workDirBody : Option String) (now pid : Nat) :
    Except AgentErr (ProcTable × String) :=
  match repo? with
  | none => Except.error AgentErr.repoNotFound
  | some repo =>
    if tracked tbl repoId then Except.error AgentErr.alreadyRunning
    else
      match (truthyStr workDirBody).or (truthyStr repo.localPath) with
      | none => Except.error AgentErr.noWorkDir
      | some workDir => Except.ok (tbl ++ [(repoId, ⟨now, pid⟩)], workDir)

/-- The `close` and `error` handlers registered on the spawned process:
`runningAgents.delete(repoId)`, regardless of exit code. -/
def agentExit (tbl : ProcTable) (repoId : Nat) : ProcTable :=
  tbl.filter (fun e => !(e.1 == repoId))

/-- A concrete pending question, for witnesses. -/
def pendQ : Question :=
  { id := 0, taskId := "t", question := "Q?", choices := none,
    answer := none, askedAt := 0, answeredAt := none }

/-- A concrete answered question, for counterexamples. -/
def ansQ : Question :=
  { id := 0, taskId := "t", question := "Q?", choices := none,
    answer := some "42", askedAt := 0, answeredAt := some 1 }

/-- A concrete repository with a configured local path. -/
def demoRepo : Repo := { id := 3, fullName := "o/r", localPath := some "/p" }

/-- A concrete repository with no usable local path. -/
def demoRepoNoPath : Repo := { id := 3, fullName := "o/r", localPath := none }

/-! ## Helper lemmas -/

theorem applyUpdate_agentStatus (i : Issue) (u : IssueUpdate) (now : Nat)
    (s : AgentStatus) (h : u.agentStatus = some s) :
    (applyUpdate i u now).agentStatus = s := by
  have hne : u ≠ noUpdate := by
    intro e
    rw [e] at h
    simp [noUpdate] at h
  rw [applyUpdate, if_neg hne]
  simp [h]

theorem applyUpdate_claimUpdate (issue : Issue) (now : Nat) :
    applyUpdate issue (claimUpdate now) now =
      { issue with
          agentStatus := AgentStatus.assigned
          agentClaimedAt := some now
          status := IssueStatus.in_progress
          updatedAt := now } := by
  have hne : claimUpdate now ≠ noUpdate := by
    simp [claimUpdate, noUpdate]
  rw [applyUpdate, if_neg hne]
  rfl

theorem claimTask_of_pending (issue : Issue) (now : Nat)
    (h : issue.agentStatus = AgentStatus.pending) :
    claimTask (some issue) now =
      Except.ok (applyUpdate issue (claimUpdate now) now) := by
  simp [claimTask, h]

theorem claimTask_of_not_pending (issue : Issue) (now : Nat)
    (h : issue.agentStatus ≠ AgentStatus.pending) :
    claimTask (some issue) now = Except.error (TaskErr.invalidTransition issue.agentStatus) := by
  simp [claimTask, h]

theorem setTaskStatus_ok (issue : Issue) (s : AgentStatus) (e : Option String)
    (now : Nat) (hs : s ≠ AgentStatus.pending) :
    ∃ j, setTaskStatus (some issue) s e now = Except.ok j ∧ j.agentStatus = s := by
  rw [setTaskStatus, if_neg hs]
  exact ⟨_, rfl, applyUpdate_agentStatus issue _ now s (by cases s <;> rfl)⟩

theorem completeTask_ok (issue : Issue) (su p : Option String) (now : Nat) :
    ∃ j, completeTask (some issue) su p now = Except.ok j ∧
      j.agentStatus = AgentStatus.completed := by
  exact ⟨_, rfl, applyUpdate_agentStatus issue _ now _ rfl⟩

/-! ## Claims about the task claim state machine -/

/-- C1: for every task, `claim` fails with `InvalidTransition` exactly when
the claim status is not `pending`; from `pending` it succeeds, sets the
status to `assigned` and stamps the claim timestamp, and of two claim
calls for the same task (serialized by the store, which is how the
synchronous SQLite driver runs the handlers) exactly the first succeeds
while the second receives `InvalidTransition`. -/
theorem C1_claim (issue : Issue) (now now2 : Nat) :
    (issue.agentStatus ≠ AgentStatus.pending →
      claimTask (some issue) now = Except.error (TaskErr.invalidTransition issue.agentStatus)) ∧
    (issue.agentStatus = AgentStatus.pending →
      ∃ j, claimTask (some issue) now = Except.ok j ∧
        j.agentStatus = AgentStatus.assigned ∧
        j.agentClaimedAt = some now ∧
        claimTask (some j) now2 = Except.error (TaskErr.invalidTransition AgentStatus.assigned)) := by
  refine ⟨fun h => claimTask_of_not_pending issue now h, fun h => ?_⟩
  refine ⟨_, claimTask_of_pending issue now h, ?_⟩
  rw [applyUpdate_claimUpdate]
  refine ⟨rfl, rfl, ?_⟩
  rw [claimTask_of_not_pending _ now2 (fun hc => by cases hc)]

/-- Witness for C1 at a concrete pending task. -/
theorem C1_claim_witness :
    sampleIssue.agentStatus = AgentStatus.pending ∧
    (∃ j, claimTask (some sampleIssue) 3 = Except.ok j ∧
      j.agentStatus = AgentStatus.assigned ∧
      j.agentClaimedAt = some 3 ∧
      claimTask (some j) 4 = Except.error (TaskErr.invalidTransition AgentStatus.assigned)) :=
  ⟨rfl, (C1_claim sampleIssue 3 4).2 rfl⟩

/-- C10: a successful claim on a pending task sets the claim status to
`assigned`, stamps the claim timestamp, and also sets the separate
workflow status field to `in-progress`; title, description, priority,
labels, agent error text and completion timestamp are unchanged. -/
theorem C10_claim_frame (issue : Issue) (now : Nat)
    (h : issue.agentStatus = AgentStatus.pending) :
    ∃ j, claimTask (some issue) now = Except.ok j ∧
      j.agentStatus = AgentStatus.assigned ∧
      j.agentClaimedAt = some now ∧
      j.status = IssueStatus.in_progress ∧
      j.title = issue.title ∧
      j.description = issue.description ∧
      j.priority = issue.priority ∧
      j.labels = issue.labels ∧
      j.agentError = issue.agentError ∧
      j.agentCompletedAt = issue.agentCompletedAt := by
  refine ⟨_, claimTask_of_pending issue now h, ?_⟩
  rw [applyUpdate_claimUpdate]
  exact ⟨rfl, rfl, rfl, rfl, rfl, rfl, rfl, rfl, rfl⟩

/-- Witness for C10 at a concrete pending task. -/
theorem C10_claim_frame_witness :
    ∃ j, claimTask (some sampleIssue) 3 = Except.ok j ∧
      j.agentStatus = AgentStatus.assigned ∧
      j.agentClaimedAt = some 3 ∧
      j.status = IssueStatus.in_progress ∧
      j.title = sampleIssue.title ∧
      j.description = sampleIssue.description ∧
      j.priority = sampleIssue.priority ∧
      j.labels = sampleIssue.labels ∧
      j.agentError = sampleIssue.agentError ∧
      j.agentCompletedAt = sampleIssue.agentCompletedAt :=
  C10_claim_frame sampleIssue 3 rfl

/-- C8 counterexample: the status route performs no transition check, so a
`failed` task moves straight back to `assigned` — the claim status does
not stay `failed` and the machine is not monotonic. -/
theorem C8_counterexample :
    failedIssue.agentStatus = AgentStatus.failed ∧
    (applyTaskOp failedIssue (TaskOp.statusOp AgentStatus.assigned none 5)).agentStatus
      = AgentStatus.assigned := by
  constructor
  · rfl
  · rfl

/-- C8 amended: `claim` succeeds exactly from `pending`; `setStatus`
performs no precondition check and writes any requested status among
`assigned | in_progress | completed | failed` over any current status
(so backward transitions are possible); the one invariant that does hold
is that no sequence of claim / setStatus / complete operations ever
returns a task to `pending`. -/
theorem C8_amended :
    (∀ issue now, (∃ j, claimTask (some issue) now = Except.ok j) ↔
      issue.agentStatus = AgentStatus.pending) ∧
    (∀ issue s e now, s ≠ AgentStatus.pending →
      ∃ j, setTaskStatus (some issue) s e now = Except.ok j ∧ j.agentStatus = s) ∧
    (∀ issue ops, (applyTaskOps issue ops).agentStatus = AgentStatus.pending →
      issue.agentStatus = AgentStatus.pending) := by
  have hstep : ∀ issue op, (applyTaskOp issue op).agentStatus = AgentStatus.pending →
      issue.agentStatus = AgentStatus.pending := by
    intro issue op
    by_cases hp : issue.agentStatus = AgentStatus.pending
    · exact fun _ => hp
    cases op with
    | claimOp now =>
      intro hres
      rw [applyTaskOp, claimTask_of_not_pending issue now hp] at hres
      exact absurd hres hp
    | statusOp s e now =>
      intro hres
      by_cases hs : s = AgentStatus.pending
      · rw [applyTaskOp, setTaskStatus, if_pos hs] at hres
        exact absurd hres hp
      · obtain ⟨j, hj, hjs⟩ := setTaskStatus_ok issue s e now hs
        rw [applyTaskOp, hj] at hres
        rw [hjs] at hres
        exact absurd hres hs
    | completeOp su p now =>
      intro hres
      obtain ⟨j, hj, hjs⟩ := completeTask_ok issue su p now
      rw [applyTaskOp, hj] at hres
      rw [hjs] at hres
      cases hres
  refine ⟨?_, ?_, ?_⟩
  · intro issue now
    constructor
    · rintro ⟨j, hj⟩
      by_contra hp
      rw [claimTask_of_not_pending issue now hp] at hj
      cases hj
    · intro hp
      exact ⟨_, claimTask_of_pending issue now hp⟩
  · intro issue s e now hs
    exact setTaskStatus_ok issue s e now hs
  · intro issue ops
    induction ops generalizing issue with
    | nil => exact fun h => h
    | cons op ops ih =>
      intro hres
      exact hstep issue op (ih (applyTaskOp issue op) hres)

/-! ## Helper lemmas for the Progress Ledger -/

theorem mkPlanFrom_length (t : String) (ds : List String) :
    ∀ i, (mkPlanFrom t i ds).length = ds.length := by
  induction ds with
  | nil => intro i; rfl
  | cons d ds ih => intro i; simp [mkPlanFrom, ih]

theorem mkPlanFrom_mem (t : String) (ds : List String) :
    ∀ i s, s ∈ mkPlanFrom t i ds →
      s.taskId = t ∧ s.status = StepStatus.pending ∧ (i : Int) ≤ s.idx := by
  induction ds with
  | nil => intro i s hs; cases hs
  | cons d ds ih =>
    intro i s hs
    rcases List.mem_cons.mp hs with h | h
    · subst h; exact ⟨rfl, rfl, le_refl _⟩
    · obtain ⟨h1, h2, h3⟩ := ih (i + 1) s h
      refine ⟨h1, h2, ?_⟩
      omega

theorem mkPlanFrom_sorted (t : String) (ds : List String) :
    ∀ i, List.Sorted byIdx (mkPlanFrom t i ds) := by
  induction ds with
  | nil => intro i; simp [mkPlanFrom]
  | cons d ds ih =>
    intro i
    rw [mkPlanFrom, List.sorted_cons]
    refine ⟨?_, ih (i + 1)⟩
    intro b hb
    have h3 := (mkPlanFrom_mem t ds (i + 1) b hb).2.2
    show (i : Int) ≤ b.idx
    omega

theorem mkPlanFrom_filter_self (t : String) (ds : List String) :
    ∀ i, List.filter (fun s => s.taskId == t) (mkPlanFrom t i ds) = mkPlanFrom t i ds := by
  induction ds with
  | nil => intro i; rfl
  | cons d ds ih =>
    intro i
    rw [mkPlanFrom, List.filter_cons]
    simp [ih (i + 1)]

theorem stepsOfTask_createPlan (db : StepDb) (t : String) (ds : List String) :
    stepsOfTask (createPlan db t ds) t = mkPlanFrom t 0 ds := by
  rw [stepsOfTask, createPlan, List.filter_append, List.filter_filter]
  have h1 : List.filter (fun a => (a.taskId == t) && !(a.taskId == t)) db = [] := by
    rw [List.filter_eq_nil_iff]
    intro a _
    cases h : a.taskId == t <;> simp [h]
  rw [h1, List.nil_append]
  exact mkPlanFrom_filter_self t ds 0

theorem getSteps_createPlan (db : StepDb) (t : String) (ds : List String) :
    getSteps (createPlan db t ds) t = mkPlanFrom t 0 ds := by
  rw [getSteps, stepsOfTask_createPlan]
  exact List.Sorted.insertionSort_eq (mkPlanFrom_sorted t ds 0)

theorem mkPlanFrom_map_idx (t : String) (ds : List String) :
    ∀ i, (mkPlanFrom t i ds).map (fun s => s.idx) =
      (List.range ds.length).map (fun k => ((i + k : Nat) : Int)) := by
  induction ds with
  | nil => intro i; rfl
  | cons d ds ih =>
    intro i
    rw [mkPlanFrom, List.map_cons, ih (i + 1), List.length_cons, List.range_succ_eq_map,
      List.map_cons, List.map_map]
    congr 1
    apply List.map_congr_left
    intro a _
    show (((i + 1 + a : Nat)) : Int) = (((i + (a + 1) : Nat)) : Int)
    omega

theorem mkPlanFrom_countP (t : String) (ds : List String) :
    ∀ (i : Nat) (k : Int), (mkPlanFrom t i ds).countP (fun s => s.idx == k) =
      if (i : Int) ≤ k ∧ k < (i : Int) + ds.length then 1 else 0 := by
  induction ds with
  | nil =>
    intro i k
    rw [mkPlanFrom, List.countP_nil, List.length_nil]
    rw [if_neg (by omega)]
  | cons d ds ih =>
    intro i k
    rw [mkPlanFrom, List.countP_cons, ih (i + 1) k]
    simp only [beq_iff_eq, List.length_cons]
    split_ifs <;> omega

theorem contiguousb_eq_true_iff (l : List Step) :
    contiguousb l = true ↔
      ∀ k, k < l.length → l.countP (fun s => s.idx == (k : Int)) = 1 := by
  rw [contiguousb, List.all_eq_true]
  constructor
  · intro h k hk
    exact beq_iff_eq.mp (h k (List.mem_range.mpr hk))
  · intro h k hk
    exact beq_iff_eq.mpr (h k (List.mem_range.mp hk))

theorem countP_idx_map {g : Step → Step} (hg : ∀ s, (g s).idx = s.idx)
    (l : List Step) (k : Int) :
    (l.map g).countP (fun s => s.idx == k) = l.countP (fun s => s.idx == k) := by
  rw [List.countP_map]
  exact List.countP_congr (fun s _ => by simp [Function.comp, hg s])

theorem stepsOfTask_map {g : Step → Step} (hg : ∀ s, (g s).taskId = s.taskId)
    (db : StepDb) (t : String) :
    stepsOfTask (db.map g) t = (stepsOfTask db t).map g := by
  rw [stepsOfTask, stepsOfTask, List.filter_map]
  congr 1
  apply List.filter_congr
  intro a _
  simp [Function.comp, hg a]

theorem contiguous_shift_insert (l : List Step) (g : Step → Step) (a : Int)
    (newRow : Step)
    (hg : ∀ s ∈ l, (g s).idx = if a < s.idx then s.idx + 1 else s.idx)
    (hnew : newRow.idx = a + 1)
    (hcont : ∀ k, k < l.length → l.countP (fun s => s.idx == (k : Int)) = 1)
    (ha : -1 ≤ a) (haN : a < (l.length : Int)) :
    ∀ k, k < (l.map g ++ [newRow]).length →
      (l.map g ++ [newRow]).countP (fun s => s.idx == (k : Int)) = 1 := by
  intro k hk
  simp only [List.length_append, List.length_map, List.length_cons, List.length_nil] at hk
  rw [List.countP_append]
  have hsing : List.countP (fun s => s.idx == (k : Int)) [newRow] =
      if (k : Int) = a + 1 then 1 else 0 := by
    rw [List.countP_cons, List.countP_nil]
    by_cases hka : (k : Int) = a + 1
    · rw [if_pos hka, if_pos (beq_iff_eq.mpr (by omega))]
    · rw [if_neg hka, if_neg (by rw [beq_eq_false_iff_ne.mpr (by omega)]; simp)]
  by_cases hA : (k : Int) ≤ a
  · have hmap : (l.map g).countP (fun s => s.idx == (k : Int)) =
        l.countP (fun s => s.idx == (k : Int)) := by
      rw [List.countP_map]
      apply List.countP_congr
      intro s hs
      simp only [Function.comp_apply]
      rw [hg s hs]
      by_cases hlt : a < s.idx
      · rw [if_pos hlt]
        simp only [beq_iff_eq]
        omega
      · rw [if_neg hlt]
    rw [hmap, hcont k (by omega), hsing, if_neg (by omega)]
  · by_cases hB : (k : Int) = a + 1
    · have hmap0 : (l.map g).countP (fun s => s.idx == (k : Int)) = 0 := by
        rw [List.countP_map, List.countP_eq_zero]
        intro s hs
        simp only [Function.comp_apply]
        rw [hg s hs]
        by_cases hlt : a < s.idx
        · rw [if_pos hlt]
          simp only [beq_iff_eq]
          omega
        · rw [if_neg hlt]
          simp only [beq_iff_eq]
          omega
      rw [hmap0, hsing, if_pos hB]
    · have hmap : (l.map g).countP (fun s => s.idx == (k : Int)) =
          l.countP (fun s => s.idx == ((k - 1 : Nat) : Int)) := by
        rw [List.countP_map]
        apply List.countP_congr
        intro s hs
        simp only [Function.comp_apply]
        rw [hg s hs]
        by_cases hlt : a < s.idx
        · rw [if_pos hlt]
          simp only [beq_iff_eq]
          omega
        · rw [if_neg hlt]
          simp only [beq_iff_eq]
          omega
      rw [hmap, hcont (k - 1) (by omega), hsing, if_neg hB]

theorem addStep_stepsOfTask (db : StepDb) (t : String) (d : String) (a : Int)
    (nid : Nat) :
    stepsOfTask (addStep db t d a nid).2 t =
      (stepsOfTask db t).map
        (fun s => if s.taskId == t && a < s.idx then { s with idx := s.idx + 1 } else s) ++
        [(addStep db t d a nid).1] := by
  have htask : ∀ s : Step,
      ((fun s => if s.taskId == t && a < s.idx then { s with idx := s.idx + 1 } else s) s).taskId
        = s.taskId := by
    intro s
    by_cases hc : (s.taskId == t && decide (a < s.idx)) = true <;> simp [hc]
  show stepsOfTask (db.map _ ++ [_]) t = _
  rw [stepsOfTask, List.filter_append]
  congr 1
  · exact stepsOfTask_map htask db t
  · simp [addStep]

theorem taskContiguous_updateStep (db : StepDb) (t2 : String) (i : Int)
    (st : StepStatus) (note : Option String) (now : Nat) (t : String)
    (h : taskContiguous db t = true) :
    taskContiguous (updateStep db t2 i st note now).2 t = true := by
  have hid : ∀ s : Step,
      ((fun s => if stepMatches t2 i s then updateStepRow st note now s else s) s).idx = s.idx := by
    intro s
    by_cases hm : stepMatches t2 i s = true <;> simp [hm, updateStepRow]
  have htask : ∀ s : Step,
      ((fun s => if stepMatches t2 i s then updateStepRow st note now s else s) s).taskId
        = s.taskId := by
    intro s
    by_cases hm : stepMatches t2 i s = true <;> simp [hm, updateStepRow]
  rw [taskContiguous] at h ⊢
  rw [show (updateStep db t2 i st note now).2 = db.map _ from rfl, stepsOfTask_map htask]
  rw [contiguousb_eq_true_iff] at h ⊢
  intro k hk
  rw [List.length_map] at hk
  rw [countP_idx_map hid]
  exact h k hk

theorem taskContiguous_addStep (db : StepDb) (t : String) (d : String) (a : Int)
    (nid : Nat) (h : taskContiguous db t = true) (ha : -1 ≤ a)
    (haN : a < ((stepsOfTask db t).length : Int)) :
    taskContiguous (addStep db t d a nid).2 t = true := by
  rw [taskContiguous, contiguousb_eq_true_iff] at h ⊢
  rw [addStep_stepsOfTask]
  apply contiguous_shift_insert (stepsOfTask db t) _ a _ ?_ rfl h ha haN
  intro s hs
  have hmem := (List.mem_filter.mp hs).2
  by_cases hlt : a < s.idx
  · rw [if_pos hlt, if_pos (by rw [hmem]; simpa using hlt)]
  · rw [if_neg hlt, if_neg (by rw [hmem]; simpa using hlt)]

theorem createPlanRoute_ok (issue : Issue) (db : StepDb) (t : String)
    (steps : List String) (now : Nat) (h1 : steps ≠ [])
    (h2 : ∀ s ∈ steps, strTrim s ≠ "") :
    createPlanRoute (some issue) db t steps now = Except.ok (createPlan db t steps,
      if issue.agentStatus = AgentStatus.assigned ∨ issue.agentStatus = AgentStatus.pending
      then applyUpdate issue planPromoteUpdate now else issue) := by
  have e1 : steps.isEmpty = false := by
    cases steps with
    | nil => exact absurd rfl h1
    | cons x xs => rfl
  have e2 : steps.all (fun s => !(strTrim s == "")) = true := by
    rw [List.all_eq_true]
    intro s hs
    have hne := h2 s hs
    show (!(strTrim s == "")) = true
    rw [beq_eq_false_iff_ne.mpr hne]
    rfl
  simp only [createPlanRoute, e1, e2, Bool.not_true, Bool.false_eq_true, if_false]

/-! ## Claims about the Progress Ledger -/

/-- C2: `createPlan` rejects an empty or blank-containing list with a
validation error; otherwise it replaces the task's steps wholesale with
rows at indices `0..N-1`, all `pending` (independently of whatever rows
existed before, so a repeated `createPlan` leaves no stale rows), and
promotes a `pending` or `assigned` task to `in_progress`. -/
theorem C2_createPlan (issue : Issue) (db : StepDb) (t : String)
    (steps : List String) (now : Nat) :
    (steps = [] → createPlanRoute (some issue) db t steps now =
      Except.error (ProgressErr.validation "steps must be a non-empty array of strings")) ∧
    ((∃ s ∈ steps, strTrim s = "") → ∃ m, createPlanRoute (some issue) db t steps now =
      Except.error (ProgressErr.validation m)) ∧
    (steps ≠ [] → (∀ s ∈ steps, strTrim s ≠ "") →
      ∃ db2 issue2, createPlanRoute (some issue) db t steps now = Except.ok (db2, issue2) ∧
        getSteps db2 t = mkPlanFrom t 0 steps ∧
        (getSteps db2 t).length = steps.length ∧
        (getSteps db2 t).map (fun s => s.idx) =
          List.map Int.ofNat (List.range steps.length) ∧
        (∀ s ∈ getSteps db2 t, s.status = StepStatus.pending) ∧
        ((issue.agentStatus = AgentStatus.pending ∨ issue.agentStatus = AgentStatus.assigned) →
          issue2.agentStatus = AgentStatus.in_progress)) := by
  refine ⟨?_, ?_, ?_⟩
  · intro h
    subst h
    rfl
  · rintro ⟨s, hs, htrim⟩
    refine ⟨"All steps must be non-empty strings", ?_⟩
    have e1 : steps.isEmpty = false := by
      cases steps with
      | nil => cases hs
      | cons x xs => rfl
    have e2 : steps.all (fun s => !(strTrim s == "")) = false := by
      cases hall : steps.all (fun s => !(strTrim s == ""))
      · rfl
      · exfalso
        have hb := List.all_eq_true.mp hall s hs
        rw [htrim] at hb
        simp at hb
    simp only [createPlanRoute, e1, e2, Bool.false_eq_true, if_false, Bool.not_false, if_true]
  · intro h1 h2
    refine ⟨_, _, createPlanRoute_ok issue db t steps now h1 h2, ?_, ?_, ?_, ?_, ?_⟩
    · exact getSteps_createPlan db t steps
    · rw [getSteps_createPlan]
      exact mkPlanFrom_length t steps 0
    · rw [getSteps_createPlan, mkPlanFrom_map_idx t steps 0]
      apply List.map_congr_left
      intro a _
      show (((0 + a : Nat)) : Int) = ((a : Nat) : Int)
      omega
    · rw [getSteps_createPlan]
      intro s hs
      exact (mkPlanFrom_mem t steps 0 s hs).2.1
    · intro hstat
      have hcond : issue.agentStatus = AgentStatus.assigned ∨
          issue.agentStatus = AgentStatus.pending := hstat.symm
      rw [if_pos hcond]
      exact applyUpdate_agentStatus issue planPromoteUpdate now _ rfl

/-- Witness for C2: a concrete two-step plan on a fresh pending task. -/
theorem C2_createPlan_witness :
    ∃ db2 issue2,
      createPlanRoute (some sampleIssue) [] "t" ["a", "b"] 7 = Except.ok (db2, issue2) ∧
      getSteps db2 "t" = mkPlanFrom "t" 0 ["a", "b"] ∧
      (getSteps db2 "t").length = (["a", "b"] : List String).length ∧
      (getSteps db2 "t").map (fun s => s.idx) =
        List.map Int.ofNat (List.range (["a", "b"] : List String).length) ∧
      (∀ s ∈ getSteps db2 "t", s.status = StepStatus.pending) ∧
      ((sampleIssue.agentStatus = AgentStatus.pending ∨
          sampleIssue.agentStatus = AgentStatus.assigned) →
        issue2.agentStatus = AgentStatus.in_progress) :=
  (C2_createPlan sampleIssue [] "t" ["a", "b"] 7).2.2 (by decide) (by decide)

/-- C5 counterexample: the add-step API accepts `afterIndex = 3` on a
3-step plan (it only requires `afterIndex ≥ -1`), shifts nothing, and
inserts the new row at index 4, leaving the gap `{0,1,2,4}` — the claimed
invariant does not survive every accepted call. -/
theorem C5_counterexample :
    ∃ r, addStepRoute (some sampleIssue) (createPlan [] "t" ["a", "b", "c"]) "t" "X" 3 99 =
        Except.ok r ∧
      taskContiguous r.2 "t" = false := by
  refine ⟨_, rfl, ?_⟩
  decide

/-- C5 amended: the indices form a contiguous `0..N-1` sequence after
`createPlan`, are preserved by every `updateStep`, and are preserved by an
`addStep` only when `-1 ≤ afterIndex < N`; the API also accepts
`afterIndex ≥ N`, which breaks the invariant (see the counterexample). -/
theorem C5_amended (db : StepDb) (t : String) :
    (∀ descs, taskContiguous (createPlan db t descs) t = true) ∧
    (∀ t2 i st note now, taskContiguous db t = true →
      taskContiguous (updateStep db t2 i st note now).2 t = true) ∧
    (∀ d a nid, taskContiguous db t = true → -1 ≤ a →
      a < ((stepsOfTask db t).length : Int) →
      taskContiguous (addStep db t d a nid).2 t = true) := by
  refine ⟨?_, ?_, ?_⟩
  · intro descs
    rw [taskContiguous, stepsOfTask_createPlan, contiguousb_eq_true_iff]
    intro k hk
    rw [mkPlanFrom_length t descs 0] at hk
    rw [mkPlanFrom_countP t descs 0 (k : Int), if_pos (by constructor <;> omega)]
  · intro t2 i st note now h
    exact taskContiguous_updateStep db t2 i st note now t h
  · intro d a nid h ha haN
    exact taskContiguous_addStep db t d a nid h ha haN

/-- Witness for C5 amended: inserting inside the bounds of a concrete
two-step plan keeps the indices contiguous. -/
theorem C5_amended_witness :
    taskContiguous (addStep (createPlan [] "t" ["a", "b"]) "t" "X" 0 99).2 "t" = true :=
  (C5_amended (createPlan [] "t" ["a", "b"]) "t").2.2 "X" 0 99 (by decide) (by decide)
    (by decide)

/-- C6: `addStep` returns a `pending` row at index `afterIndex + 1`; on the
task's rows every step with index greater than `afterIndex` is shifted up
by one before the new row is appended (with `afterIndex = -1` this shifts
every row, i.e. inserts at the front); and on the 3-step plan `[a,b,c]`,
`addStep` with `afterIndex = 1` yields `[a,b,X,c]` with indices
`[0,1,2,3]`. -/
theorem C6_addStep (db : StepDb) (t : String) (d : String) (a : Int) (nid : Nat) :
    ((addStep db t d a nid).1 =
      { id := nid, taskId := t, idx := a + 1, description := d,
        status := StepStatus.pending, note := none, startedAt := none, completedAt := none }) ∧
    (stepsOfTask (addStep db t d a nid).2 t =
      (stepsOfTask db t).map
        (fun s => if a < s.idx then { s with idx := s.idx + 1 } else s) ++
        [(addStep db t d a nid).1]) ∧
    ((getSteps ((addStep (createPlan [] "t" ["a", "b", "c"]) "t" "X" 1 99).2) "t").map
        (fun s => (s.description, s.idx)) =
      [("a", 0), ("b", 1), ("X", 2), ("c", 3)]) := by
  refine ⟨rfl, ?_, ?_⟩
  · rw [addStep_stepsOfTask]
    congr 1
    apply List.map_congr_left
    intro s hs
    have hmem := (List.mem_filter.mp hs).2
    by_cases hlt : a < s.idx
    · simp [hmem, hlt]
    · simp [hmem, hlt]
  · decide

theorem stepMatches_iff (t : String) (i : Int) (s : Step) :
    stepMatches t i s = true ↔ (s.taskId = t ∧ s.idx = i) := by
  simp [stepMatches]

theorem stepMatches_mapped (t : String) (i : Int) (st : StepStatus)
    (note : Option String) (now : Nat) (s : Step) :
    stepMatches t i
        ((fun s => if stepMatches t i s then updateStepRow st note now s else s) s)
      = stepMatches t i s := by
  by_cases hm : stepMatches t i s = true
  · have h1 : (fun s => if stepMatches t i s then updateStepRow st note now s else s) s
        = updateStepRow st note now s := by simp [hm]
    rw [h1]
    rfl
  · have h1 : (fun s => if stepMatches t i s then updateStepRow st note now s else s) s
        = s := by simp [hm]
    rw [h1]

theorem updateStep_none_iff (db : StepDb) (t : String) (i : Int)
    (st : StepStatus) (note : Option String) (now : Nat) :
    (updateStep db t i st note now).1 = none ↔
      ∀ s ∈ db, ¬ stepMatches t i s = true := by
  have h1 : (updateStep db t i st note now).1 =
      List.find? (stepMatches t i)
        (db.map (fun s => if stepMatches t i s then updateStepRow st note now s else s)) := rfl
  rw [h1, List.find?_eq_none]
  constructor
  · intro h s hs
    have hx := h _ (List.mem_map_of_mem _ hs)
    rwa [stepMatches_mapped] at hx
  · intro h x hx
    obtain ⟨s, hs, rfl⟩ := List.mem_map.mp hx
    rw [stepMatches_mapped]
    exact h s hs

theorem updateStep_found (db : StepDb) (t : String) (i : Int) (st : StepStatus)
    (note : Option String) (now : Nat) (s2 : Step)
    (hf : (updateStep db t i st note now).1 = some s2) :
    ∃ s ∈ db, stepMatches t i s = true ∧ s2 = updateStepRow st note now s := by
  have hf2 : List.find? (stepMatches t i)
      (db.map (fun s => if stepMatches t i s then updateStepRow st note now s else s))
      = some s2 := hf
  have hmem := List.mem_of_find?_eq_some hf2
  obtain ⟨s, hs, hfs⟩ := List.mem_map.mp hmem
  by_cases hm : stepMatches t i s = true
  · refine ⟨s, hs, hm, ?_⟩
    rw [← hfs]
    simp [hm]
  · exfalso
    have hp := List.find?_some hf2
    rw [← hfs] at hp
    simp [hm] at hp

theorem updateStepRow_startedAt (st : StepStatus) (note : Option String)
    (now : Nat) (s : Step) (h : st = StepStatus.in_progress) :
    (updateStepRow st note now s).startedAt = some now := by
  show (if st = StepStatus.in_progress then some now else s.startedAt) = some now
  rw [if_pos h]

theorem updateStepRow_completedAt (st : StepStatus) (note : Option String)
    (now : Nat) (s : Step)
    (h : st = StepStatus.done ∨ st = StepStatus.failed ∨ st = StepStatus.skipped) :
    (updateStepRow st note now s).completedAt = some now := by
  show (if st = StepStatus.done ∨ st = StepStatus.failed ∨ st = StepStatus.skipped
      then some now else s.completedAt) = some now
  rw [if_pos h]

theorem updateStepRoute_eq (issue : Issue) (db : StepDb) (t : String) (i : Int)
    (st : StepStatus) (note : Option String) (now : Nat) (h0 : 0 ≤ i) :
    updateStepRoute (some issue) db t i st note now =
      match (updateStep db t i st note now).1 with
      | none => Except.error ProgressErr.stepNotFound
      | some s => Except.ok (s, (updateStep db t i st note now).2) := by
  simp only [updateStepRoute]
  rw [if_neg (by omega)]

theorem updateStep_found_second (db : StepDb) (t : String) (i : Int)
    (st : StepStatus) (note : Option String) (now : Nat) (s2 : Step)
    (hf : (updateStep db t i st note now).1 = some s2)
    (note2 : Option String) (now2 : Nat) :
    ∃ s3, (updateStep (updateStep db t i st note now).2 t i st note2 now2).1 = some s3 := by
  obtain ⟨s, hs, hm, rfl⟩ := updateStep_found db t i st note now s2 hf
  have hmem2 : updateStepRow st note now s ∈ (updateStep db t i st note now).2 := by
    have : (fun s => if stepMatches t i s then updateStepRow st note now s else s) s
        = updateStepRow st note now s := by simp [hm]
    rw [show (updateStep db t i st note now).2
        = db.map (fun s => if stepMatches t i s then updateStepRow st note now s else s)
      from rfl, ← this]
    exact List.mem_map_of_mem _ hs
  have hm2 : stepMatches t i (updateStepRow st note now s) = true := by
    have : stepMatches t i (updateStepRow st note now s) = stepMatches t i s := rfl
    rw [this]
    exact hm
  cases hcase : (updateStep (updateStep db t i st note now).2 t i st note2 now2).1 with
  | some s3 => exact ⟨s3, rfl⟩
  | none =>
    exfalso
    exact (updateStep_none_iff _ t i st note2 now2).mp hcase _ hmem2 hm2

/-- C7: `updateStep` fails with NotFound exactly when no step of the task
carries the index; a successful update writes the requested status, stamps
`started_at := now` for `in_progress` and `completed_at := now` for any of
`done | failed | skipped`, writes a provided note, and a repeated call
with the same status still succeeds, leaves the status unchanged and
re-stamps the timestamps with the latest time. -/
theorem C7_updateStep (issue : Issue) (db : StepDb) (t : String) (i : Int)
    (st : StepStatus) (note : Option String) (now : Nat) (h0 : 0 ≤ i) :
    (updateStepRoute (some issue) db t i st note now = Except.error ProgressErr.stepNotFound ↔
      ∀ s ∈ db, ¬(s.taskId = t ∧ s.idx = i)) ∧
    (∀ s2 db2, updateStepRoute (some issue) db t i st note now = Except.ok (s2, db2) →
      s2.status = st ∧
      (st = StepStatus.in_progress → s2.startedAt = some now) ∧
      ((st = StepStatus.done ∨ st = StepStatus.failed ∨ st = StepStatus.skipped) →
        s2.completedAt = some now) ∧
      (∀ v, note = some v → s2.note = some v) ∧
      (∀ note2 now2, ∃ s3 db3,
        updateStepRoute (some issue) db2 t i st note2 now2 = Except.ok (s3, db3) ∧
        s3.status = st ∧
        (st = StepStatus.in_progress → s3.startedAt = some now2) ∧
        ((st = StepStatus.done ∨ st = StepStatus.failed ∨ st = StepStatus.skipped) →
          s3.completedAt = some now2))) := by
  constructor
  · rw [updateStepRoute_eq issue db t i st note now h0]
    cases hf : (updateStep db t i st note now).1 with
    | none =>
      simp only [true_iff]
      intro s hs hsm
      exact (updateStep_none_iff db t i st note now).mp hf s hs
        ((stepMatches_iff t i s).mpr hsm)
    | some s2 =>
      constructor
      · intro hcontra
        cases hcontra
      · intro hall
        obtain ⟨s, hs, hm, _⟩ := updateStep_found db t i st note now s2 hf
        exact absurd ((stepMatches_iff t i s).mp hm) (hall s hs)
  · intro s2 db2 hok
    rw [updateStepRoute_eq issue db t i st note now h0] at hok
    cases hf : (updateStep db t i st note now).1 with
    | none =>
      rw [hf] at hok
      cases hok
    | some sfound =>
      rw [hf] at hok
      injection hok with hok2
      injection hok2 with hs2 hdb2
      obtain ⟨s, hs, hm, hrow⟩ := updateStep_found db t i st note now sfound hf
      subst hs2
      refine ⟨by rw [hrow]; rfl, fun h => by rw [hrow]; exact updateStepRow_startedAt _ _ _ _ h,
        fun h => by rw [hrow]; exact updateStepRow_completedAt _ _ _ _ h,
        fun v hv => by rw [hrow, hv]; rfl, ?_⟩
      intro note2 now2
      obtain ⟨s3, hf3⟩ := updateStep_found_second db t i st note now sfound hf note2 now2
      subst hdb2
      refine ⟨s3, (updateStep (updateStep db t i st note now).2 t i st note2 now2).2, ?_, ?_, ?_, ?_⟩
      · rw [updateStepRoute_eq issue _ t i st note2 now2 h0, hf3]
      · obtain ⟨x, _, _, hrow3⟩ :=
          updateStep_found _ t i st note2 now2 s3 hf3
        rw [hrow3]
        rfl
      · intro h
        obtain ⟨x, _, _, hrow3⟩ :=
          updateStep_found _ t i st note2 now2 s3 hf3
        rw [hrow3]
        exact updateStepRow_startedAt _ _ _ _ h
      · intro h
        obtain ⟨x, _, _, hrow3⟩ :=
          updateStep_found _ t i st note2 now2 s3 hf3
        rw [hrow3]
        exact updateStepRow_completedAt _ _ _ _ h

/-- Witness for C7: marking step 0 of a concrete one-step plan `done`
twice. -/
theorem C7_updateStep_witness :
    (updateStepRoute (some sampleIssue) (createPlan [] "t" ["a"]) "t" 0
        StepStatus.done none 5 = Except.error ProgressErr.stepNotFound ↔
      ∀ s ∈ createPlan [] "t" ["a"], ¬(s.taskId = "t" ∧ s.idx = 0)) ∧
    (∀ s2 db2, updateStepRoute (some sampleIssue) (createPlan [] "t" ["a"]) "t" 0
        StepStatus.done none 5 = Except.ok (s2, db2) →
      s2.status = StepStatus.done ∧
      (StepStatus.done = StepStatus.in_progress → s2.startedAt = some 5) ∧
      ((StepStatus.done = StepStatus.done ∨ StepStatus.done = StepStatus.failed ∨
          StepStatus.done = StepStatus.skipped) → s2.completedAt = some 5) ∧
      (∀ v, (none : Option String) = some v → s2.note = some v) ∧
      (∀ note2 now2, ∃ s3 db3,
        updateStepRoute (some sampleIssue) db2 "t" 0 StepStatus.done note2 now2 =
          Except.ok (s3, db3) ∧
        s3.status = StepStatus.done ∧
        (StepStatus.done = StepStatus.in_progress → s3.startedAt = some now2) ∧
        ((StepStatus.done = StepStatus.done ∨ StepStatus.done = StepStatus.failed ∨
            StepStatus.done = StepStatus.skipped) → s3.completedAt = some now2))) :=
  C7_updateStep sampleIssue (createPlan [] "t" ["a"]) "t" 0 StepStatus.done none 5
    (by decide)

/-- Witness for C8 amended: a completed task never returns to `pending`
under a concrete operation sequence, and `setStatus` overwrites freely. -/
theorem C8_amended_witness :
    ((∃ j, claimTask (some sampleIssue) 3 = Except.ok j) ↔
      sampleIssue.agentStatus = AgentStatus.pending) ∧
    (∃ j, setTaskStatus (some failedIssue) AgentStatus.in_progress none 9 = Except.ok j ∧
      j.agentStatus = AgentStatus.in_progress) ∧
    ((applyTaskOps failedIssue [TaskOp.statusOp AgentStatus.assigned none 5]).agentStatus
        = AgentStatus.pending →
      failedIssue.agentStatus = AgentStatus.pending) :=
  ⟨C8_amended.1 sampleIssue 3,
   C8_amended.2.1 failedIssue AgentStatus.in_progress none 9 (fun hc => by cases hc),
   C8_amended.2.2 failedIssue [TaskOp.statusOp AgentStatus.assigned none 5]⟩

/-! ## Helper lemmas for the Clarification Channel -/

theorem pickMaxAskedAt_mem :
    ∀ (l : List Question) (acc : Option Question) (q : Question),
      l.foldl (fun acc q =>
        match acc with
        | none => some q
        | some b => if b.askedAt ≤ q.askedAt then some q else some b) acc = some q →
      q ∈ l ∨ acc = some q := by
  intro l
  induction l with
  | nil => intro acc q h; exact Or.inr h
  | cons x xs ih =>
    intro acc q h
    rcases ih _ q h with hmem | hacc
    · exact Or.inl (List.mem_cons_of_mem x hmem)
    · cases acc with
      | none =>
        have hx : some x = some q := hacc
        injection hx with hx2
        exact Or.inl (hx2 ▸ List.mem_cons_self x xs)
      | some b =>
        have hx : (if b.askedAt ≤ x.askedAt then some x else some b) = some q := hacc
        by_cases hle : b.askedAt ≤ x.askedAt
        · rw [if_pos hle] at hx
          injection hx with hx2
          exact Or.inl (hx2 ▸ List.mem_cons_self x xs)
        · rw [if_neg hle] at hx
          exact Or.inr hx

theorem getPendingQuestion_spec (db : QDb) (t : String) (pq : Question)
    (h : getPendingQuestion db t = some pq) :
    pq ∈ db ∧ pq.taskId = t ∧ pq.answer = none := by
  have hmem : pq ∈ db.filter (fun q => q.taskId == t && q.answer == none) := by
    rcases pickMaxAskedAt_mem _ none pq h with hm | hm
    · exact hm
    · cases hm
  obtain ⟨h1, h2⟩ := List.mem_filter.mp hmem
  refine ⟨h1, ?_, ?_⟩
  · have := (Bool.and_eq_true _ _).mp h2
    exact beq_iff_eq.mp this.1
  · have := (Bool.and_eq_true _ _).mp h2
    exact beq_iff_eq.mp this.2

theorem answerQuestion_eq (db : QDb) (t ans : String) (now : Nat) (pq : Question)
    (hp : getPendingQuestion db t = some pq) :
    answerQuestion db t ans now =
      some ({ pq with answer := some ans, answeredAt := some now },
        db.map (fun q => if q.id == pq.id then
          { q with answer := some ans, answeredAt := some now } else q)) := by
  simp only [answerQuestion, hp]

theorem answerRoute_eq (issue : Issue) (db : QDb) (t ans : String) (now : Nat)
    (hblank : ¬ strTrim ans = "") :
    answerRoute (some issue) db t ans now =
      match getPendingQuestion db t with
      | none => Except.error ProgressErr.noPendingQuestion
      | some pq =>
        Except.ok ({ pq with answer := some (strTrim ans), answeredAt := some now },
          db.map (fun q => if q.id == pq.id then
            { q with answer := some (strTrim ans), answeredAt := some now } else q)) := by
  simp only [answerRoute]
  rw [if_neg (by rw [beq_eq_false_iff_ne.mpr hblank]; simp)]
  cases hp : getPendingQuestion db t with
  | none => rfl
  | some pq =>
    rw [answerQuestion_eq db t (strTrim ans) now pq hp]

theorem nodup_ids_applyQOp (db : QDb) (op : QOp)
    (hnodup : (db.map (fun q => q.id)).Nodup)
    (hop : qopIdFresh db op) :
    ((applyQOp db op).map (fun q => q.id)).Nodup := by
  cases op with
  | askOp t q c nid now =>
    simp only [applyQOp, askQuestion, List.map_append, List.map_cons, List.map_nil]
    rw [List.nodup_append]
    refine ⟨hnodup, List.nodup_singleton _, ?_⟩
    intro x hx
    obtain ⟨qq, hqq, rfl⟩ := List.mem_map.mp hx
    simp only [List.mem_singleton]
    exact hop qq hqq
  | answerOp t a now =>
    simp only [applyQOp]
    cases hq : answerQuestion db t a now with
    | none => exact hnodup
    | some r =>
      cases hp : getPendingQuestion db t with
      | none => rw [answerQuestion, hp] at hq; cases hq
      | some pq =>
        rw [answerQuestion_eq db t a now pq hp] at hq
        injection hq with hr
        rw [← hr]
        have hids : (db.map (fun q => if q.id == pq.id then
            { q with answer := some a, answeredAt := some now } else q)).map (fun q => q.id)
            = db.map (fun q => q.id) := by
          rw [List.map_map]
          apply List.map_congr_left
          intro x _
          by_cases hid : x.id = pq.id <;> simp [hid]
        show ((db.map (fun q => if q.id == pq.id then
            { q with answer := some a, answeredAt := some now } else q)).map
          (fun q => q.id)).Nodup
        rw [hids]
        exact hnodup

theorem mem_applyQOp (db : QDb) (op : QOp) (q : Question) (a : String)
    (hnodup : (db.map (fun q => q.id)).Nodup)
    (hq : q ∈ db) (ha : q.answer = some a) :
    q ∈ applyQOp db op := by
  cases op with
  | askOp t2 q2 c nid now =>
    simp only [applyQOp, askQuestion]
    exact List.mem_append_left _ hq
  | answerOp t2 a2 now =>
    simp only [applyQOp]
    cases hans : answerQuestion db t2 a2 now with
    | none => exact hq
    | some r =>
      cases hp : getPendingQuestion db t2 with
      | none => rw [answerQuestion, hp] at hans; cases hans
      | some pq =>
        rw [answerQuestion_eq db t2 a2 now pq hp] at hans
        injection hans with hr
        rw [← hr]
        obtain ⟨hpqmem, _, hpqans⟩ := getPendingQuestion_spec db t2 pq hp
        have hne : ¬ q.id = pq.id := by
          intro hid
          have hqq := List.inj_on_of_nodup_map hnodup hq hpqmem hid
          rw [hqq, hpqans] at ha
          cases ha
        have hfix : (fun q => if q.id == pq.id then
            { q with answer := some a2, answeredAt := some now } else q) q = q := by
          simp [hne]
        show q ∈ db.map (fun q => if q.id == pq.id then
            { q with answer := some a2, answeredAt := some now } else q)
        rw [← hfix]
        exact List.mem_map_of_mem _ hq

/-! ## Claims about the Clarification Channel -/

/-- C4: with a non-blank answer text, `answer` fails with NoPendingQuestion
exactly when the task has no unanswered question; otherwise it writes the
answer and the answer timestamp onto the pending question; and a question
whose answer is set is never modified by any later ask / answer operation
(ids being unique, as `randomUUID` guarantees). -/
theorem C4_answer (issue : Issue) (db : QDb) (t ans : String) (now : Nat) :
    (strTrim ans ≠ "" →
      (answerRoute (some issue) db t ans now = Except.error ProgressErr.noPendingQuestion ↔
        getPendingQuestion db t = none)) ∧
    (strTrim ans ≠ "" → ∀ pq, getPendingQuestion db t = some pq →
      pq.answer = none ∧
      ∃ db2, answerRoute (some issue) db t ans now =
        Except.ok ({ pq with answer := some (strTrim ans), answeredAt := some now }, db2)) ∧
    (∀ ops q a, (db.map (fun q => q.id)).Nodup → idsOk db ops → q ∈ db →
      q.answer = some a → q ∈ applyQOps db ops) := by
  refine ⟨?_, ?_, ?_⟩
  · intro hblank
    rw [answerRoute_eq issue db t ans now hblank]
    cases hp : getPendingQuestion db t with
    | none => simp
    | some pq =>
      constructor
      · intro hcontra; cases hcontra
      · intro hcontra; cases hcontra
  · intro hblank pq hp
    refine ⟨(getPendingQuestion_spec db t pq hp).2.2, ?_⟩
    rw [answerRoute_eq issue db t ans now hblank, hp]
    exact ⟨_, rfl⟩
  · intro ops
    induction ops generalizing db with
    | nil => intro q a _ _ hq _; exact hq
    | cons op ops ih =>
      intro q a hnodup hidsok hq ha
      obtain ⟨hop, hrest⟩ := hidsok
      exact ih (applyQOp db op) q a (nodup_ids_applyQOp db op hnodup hop) hrest
        (mem_applyQOp db op q a hnodup hq ha) ha

/-- Witness for C4: answering the one pending question of a concrete task,
then asking and answering a second question leaves the first answer
intact. -/
theorem C4_answer_witness :
    ((answerRoute (some sampleIssue) [pendQ] "t" "yes" 3 =
        Except.error ProgressErr.noPendingQuestion ↔
      getPendingQuestion [pendQ] "t" = none)) ∧
    (pendQ.answer = none ∧
      ∃ db2, answerRoute (some sampleIssue) [pendQ] "t" "yes" 3 =
        Except.ok ({ pendQ with answer := some (strTrim "yes"), answeredAt := some 3 }, db2)) ∧
    (ansQ ∈ applyQOps [ansQ]
      [QOp.askOp "t" "Q2?" none 1 4, QOp.answerOp "t" "no" 5]) :=
  ⟨(C4_answer sampleIssue [pendQ] "t" "yes" 3).1 (by decide),
   (C4_answer sampleIssue [pendQ] "t" "yes" 3).2.1 (by decide) pendQ (by decide),
   (C4_answer sampleIssue [ansQ] "t" "yes" 3).2.2
     [QOp.askOp "t" "Q2?" none 1 4, QOp.answerOp "t" "no" 5] ansQ "42"
     (by decide) ⟨show ∀ q ∈ [ansQ], q.id ≠ 1 by decide, trivial, trivial⟩
     (by decide) (by decide)⟩

theorem waitLoop_no_answer (o : Nat → Option Question) (pq : Question) (T : Nat)
    (h : ∀ e, answerMatches pq (o e) = false) :
    ∀ elapsed, waitLoop o pq T elapsed = ⟨false, some pq, none⟩ := by
  have key : ∀ n elapsed, T - elapsed ≤ n →
      waitLoop o pq T elapsed = ⟨false, some pq, none⟩ := by
    intro n
    induction n with
    | zero =>
      intro e he
      rw [waitLoop]
      rw [dif_pos (by omega)]
    | succ n ih =>
      intro e he
      rw [waitLoop]
      by_cases hT : T ≤ e
      · rw [dif_pos hT]
      · rw [dif_neg hT]
        cases ho : o e with
        | none =>
          exact ih (e + 500) (by omega)
        | some a =>
          have hm : answerMatches pq (o e) = false := h e
          rw [ho] at hm
          have hm2 : (!(a.answer.getD "" == "") && a.id == pq.id) = false := hm
          show (if (!(a.answer.getD "" == "") && a.id == pq.id) = true then
              ({ answered := true, question := some a, message := none } : WaitResult)
            else waitLoop o pq T (e + 500)) = _
          rw [hm2]
          simp only [Bool.false_eq_true, if_false]
          exact ih (e + 500) (by omega)
  intro e
  exact key (T - e) e le_rfl

/-- C3 counterexample: a task whose only question is already answered has
no pending question, yet `waitForAnswer` returns `answered=true` with that
old answer instead of the claimed `answered=false`; the route's first
check reads the most recently *answered* question, not the most recent
question. -/
theorem C3_counterexample :
    getPendingQuestion [ansQ] "t" = none ∧
    waitForAnswer (some sampleIssue) [ansQ] (fun _ => none) "t" (some 5000) =
      Except.ok ⟨true, some ansQ, none⟩ := by
  constructor
  · rfl
  · rfl

/-- C3 amended: `waitForAnswer` returns `answered=true` immediately when
the task has any answered question (its most recently answered one, even
while a newer question is pending); it returns `answered=false` with no
question only when the task has neither an answered nor a pending
question; otherwise it polls at the fixed 500 ms interval with the
requested timeout clamped to `[0, 30000]` ms, returning `answered=false`
with the still-pending question when the clamped timeout elapses with no
answer to that question. -/
theorem C3_waitForAnswer (issue : Issue) (db : QDb) (o : Nat → Option Question)
    (t : String) (timeout : Option Int) :
    (hasTruthyAnswer (getAnswer db t) = true →
      waitForAnswer (some issue) db o t timeout =
        Except.ok ⟨true, getAnswer db t, none⟩) ∧
    (hasTruthyAnswer (getAnswer db t) = false → getPendingQuestion db t = none →
      waitForAnswer (some issue) db o t timeout =
        Except.ok ⟨false, none, some "No pending question for this task"⟩) ∧
    (clampTimeout timeout ≤ 30000) ∧
    (∀ pq, hasTruthyAnswer (getAnswer db t) = false →
      getPendingQuestion db t = some pq →
      (∀ e, answerMatches pq (o e) = false) →
      waitForAnswer (some issue) db o t timeout = Except.ok ⟨false, some pq, none⟩) := by
  refine ⟨?_, ?_, ?_, ?_⟩
  · intro h
    simp only [waitForAnswer]
    rw [if_pos h]
  · intro h hp
    simp only [waitForAnswer]
    rw [if_neg (by rw [h]; simp), hp]
  · rw [clampTimeout]
    omega
  · intro pq h hp hmatch
    simp only [waitForAnswer]
    rw [if_neg (by rw [h]; simp), hp]
    show (if clampTimeout timeout = 0 then
        (Except.ok { answered := false, question := some pq, message := none } :
          Except ProgressErr WaitResult)
      else Except.ok (waitLoop o pq (clampTimeout timeout) 0)) = _
    by_cases h0 : clampTimeout timeout = 0
    · rw [if_pos h0]
    · rw [if_neg h0]
      rw [waitLoop_no_answer o pq (clampTimeout timeout) hmatch 0]

/-- Witness for C3 amended: a concrete pending question with no incoming
answer times out with `answered=false` and the question attached. -/
theorem C3_waitForAnswer_witness :
    waitForAnswer (some sampleIssue) [pendQ] (fun _ => none) "t" (some 700) =
      Except.ok ⟨false, some pendQ, none⟩ :=
  (C3_waitForAnswer sampleIssue [pendQ] (fun _ => none) "t" (some 700)).2.2.2 pendQ
    (by decide) (by decide) (fun e => rfl)

/-! ## Helper lemmas and claims for the Process Supervisor -/

theorem tracked_agentExit (tb : ProcTable) (r : Nat) :
    tracked (agentExit tb r) r = false := by
  rw [tracked, agentExit]
  cases hany : (tb.filter (fun e => !(e.1 == r))).any (fun e => e.1 == r) with
  | false => rfl
  | true =>
    exfalso
    obtain ⟨x, hx, hxr⟩ := List.any_eq_true.mp hany
    have hflt := (List.mem_filter.mp hx).2
    rw [hxr] at hflt
    simp at hflt

/-- C9: `start` fails with AlreadyRunning when the repo id is tracked and
with NoWorkDir when neither the request body nor the repository row
provides a (truthy) directory; a process exit always removes its key; so a
second `start` right after a successful one fails, and a `start` issued
after the process has exited succeeds again. -/
theorem C9_start (tbl : ProcTable) (repo : Repo) (rid : Nat) (wd : Option String)
    (now pid : Nat) :
    (tracked tbl rid = true →
      startAgent tbl (some repo) rid wd now pid = Except.error AgentErr.alreadyRunning) ∧
    (tracked tbl rid = false → truthyStr wd = none → truthyStr repo.localPath = none →
      startAgent tbl (some repo) rid wd now pid = Except.error AgentErr.noWorkDir) ∧
    (∀ tb : ProcTable, ∀ r : Nat, tracked (agentExit tb r) r = false) ∧
    (∀ tbl2 w, startAgent tbl (some repo) rid wd now pid = Except.ok (tbl2, w) →
      (∀ wd2 now2 pid2, startAgent tbl2 (some repo) rid wd2 now2 pid2 =
        Except.error AgentErr.alreadyRunning) ∧
      (∀ wd2 now2 pid2 w2, truthyStr wd2 = some w2 →
        startAgent (agentExit tbl2 rid) (some repo) rid wd2 now2 pid2 =
          Except.ok (agentExit tbl2 rid ++ [(rid, ⟨now2, pid2⟩)], w2))) := by
  refine ⟨?_, ?_, fun tb r => tracked_agentExit tb r, ?_⟩
  · intro h
    simp only [startAgent]
    rw [if_pos h]
  · intro h h2 h3
    simp only [startAgent]
    rw [if_neg (by rw [h]; simp), h2, h3]
    rfl
  · intro tbl2 w hok
    by_cases htr : tracked tbl rid = true
    · rw [show startAgent tbl (some repo) rid wd now pid =
          Except.error AgentErr.alreadyRunning by simp only [startAgent]; rw [if_pos htr]]
        at hok
      cases hok
    · cases hor : (truthyStr wd).or (truthyStr repo.localPath) with
      | none =>
        rw [show startAgent tbl (some repo) rid wd now pid =
            Except.error AgentErr.noWorkDir by
          simp only [startAgent]; rw [if_neg htr, hor]] at hok
        cases hok
      | some wdir =>
        rw [show startAgent tbl (some repo) rid wd now pid =
            Except.ok (tbl ++ [(rid, ⟨now, pid⟩)], wdir) by
          simp only [startAgent]; rw [if_neg htr, hor]] at hok
        injection hok with hpair
        injection hpair with h1 h2
        subst h1
        constructor
        · intro wd2 now2 pid2
          have htr2 : tracked (tbl ++ [(rid, ⟨now, pid⟩)]) rid = true := by
            rw [tracked, List.any_append]
            simp
          simp only [startAgent]
          rw [if_pos htr2]
        · intro wd2 now2 pid2 w2 hw2
          have htr3 := tracked_agentExit (tbl ++ [(rid, ⟨now, pid⟩)]) rid
          simp only [startAgent]
          rw [if_neg (by rw [htr3]; simp), hw2]
          rfl

/-- Witness for C9 at concrete tables and repositories: the double-start
failure and the start-after-exit success. -/
theorem C9_start_witness :
    (startAgent [(3, ⟨0, 9⟩)] (some demoRepo) 3 none 5 77 =
      Except.error AgentErr.alreadyRunning) ∧
    (startAgent [] (some demoRepoNoPath) 3 none 5 77 =
      Except.error AgentErr.noWorkDir) ∧
    (tracked (agentExit [(3, ⟨0, 9⟩)] 3) 3 = false) ∧
    ((∀ wd2 now2 pid2, startAgent [(3, ⟨5, 77⟩)] (some demoRepo) 3 wd2 now2 pid2 =
        Except.error AgentErr.alreadyRunning) ∧
      (∀ wd2 now2 pid2 w2, truthyStr wd2 = some w2 →
        startAgent (agentExit [(3, ⟨5, 77⟩)] 3) (some demoRepo) 3 wd2 now2 pid2 =
          Except.ok (agentExit [(3, ⟨5, 77⟩)] 3 ++ [(3, ⟨now2, pid2⟩)], w2))) :=
  ⟨(C9_start [(3, ⟨0, 9⟩)] demoRepo 3 none 5 77).1 (by decide),
   (C9_start [] demoRepoNoPath 3 none 5 77).2.1 (by decide) (by decide) (by decide),
   (C9_start [] demoRepo 3 none 5 77).2.2.1 [(3, ⟨0, 9⟩)] 3,
   (C9_start [] demoRepo 3 none 5 77).2.2.2 [(3, ⟨5, 77⟩)] "/p" rfl⟩

end RepoDepot
